import Mathlib

/-!
Custom Redis in Go: the command interpreter of `main.go`.

A shallow embedding of `handleResponse` (and of the per-line path of
`handleRequest`) together with the library functions it calls
(`strings.TrimSpace`, `strings.Fields`, `strings.Join`, `strings.ToLower`,
`strconv.ParseInt`, `strconv.Itoa`).

Modelling conventions.
* A Go `string` is a Lean `String` (a sequence of Unicode code points);
  `len(s)` is the UTF-8 byte size.
* The global `redisMap` is threaded explicitly: a store is a function from
  keys to optional entries, `redisMap[k] = e` is `Store.assign`,
  `delete(redisMap, k)` is `Store.delete`.
* `time.Now().UnixMilli()` is the extra argument `now`.
* `int64` values are integers; the one addition of the program is wrapped
  with `wrapInt64`.
* The run-time failure of `cmds[0]` on an empty slice is the result `none`.
-/

namespace CustomRedis

/-! ## Data model -/

/-- The struct `RedisEntry`: a value and its expiry timestamp in milliseconds
(`0` for no expiry). -/
structure RedisEntry where
  value : String
  expires : Int
deriving DecidableEq, Repr

/-- The type of the global `redisMap : map[string]RedisEntry`. -/
abbrev Store := String → Option RedisEntry

/-- The initial value of `redisMap`: the empty map. -/
def Store.empty : Store := fun _ => none

/-- The map assignment `m[k] = e`. -/
def Store.assign (m : Store) (k : String) (e : RedisEntry) : Store :=
  fun x => if x = k then some e else m x

/-- The builtin `delete(m, k)`. -/
def Store.delete (m : Store) (k : String) : Store :=
  fun x => if x = k then none else m x

/-- The globals `dir` and `dbfilename`, set once from the command line. -/
structure Config where
  dir : String
  dbfilename : String
deriving DecidableEq, Repr

/-! ## Library functions -/

/-- Go's `unicode.IsSpace`: the Latin-1 spaces, and above Latin-1 the code
points of the `White_Space` property. -/
def isSpace (c : Char) : Bool :=
  let r := c.toNat
  if r ≤ 0xFF then
    r == 0x09 || r == 0x0A || r == 0x0B || r == 0x0C || r == 0x0D || r == 0x20 ||
      r == 0x85 || r == 0xA0
  else
    r == 0x1680 || (0x2000 ≤ r && r ≤ 0x200A) || r == 0x2028 || r == 0x2029 ||
      r == 0x202F || r == 0x205F || r == 0x3000

/-- Go's `strings.TrimSpace`: leading and trailing white space removed. -/
def TrimSpace (s : String) : String :=
  ⟨((s.data.dropWhile isSpace).reverse.dropWhile isSpace).reverse⟩

/-- The scan of `strings.Fields`: `cur` is the field being read, reversed. -/
def fieldsFrom : List Char → List Char → List (List Char)
  | [], cur => if cur.isEmpty then [] else [cur.reverse]
  | c :: cs, cur =>
    if isSpace c then
      if cur.isEmpty then fieldsFrom cs [] else cur.reverse :: fieldsFrom cs []
    else fieldsFrom cs (c :: cur)

/-- Go's `strings.Fields`: the maximal runs of non-space characters. -/
def Fields (s : String) : List String :=
  (fieldsFrom s.data []).map String.mk

/-- Go's `strings.Join`. -/
def Join : List String → String → String
  | [], _ => ""
  | [a], _ => a
  | a :: b :: rest, sep => a ++ sep ++ Join (b :: rest) sep

/-- Go's `strings.ToLower`: ASCII letters are lowered by adding 32, every
other ASCII character is kept; a non-ASCII code point is mapped by the
Unicode lower-case table, which is the parameter `lowerTable`. -/
def ToLower (lowerTable : Char → Char) (s : String) : String :=
  ⟨s.data.map fun c =>
    if c.toNat < 0x80 then
      (if 0x41 ≤ c.toNat ∧ c.toNat ≤ 0x5A then Char.ofNat (c.toNat + 32) else c)
    else lowerTable c⟩

/-- The digit loop of `strconv.ParseUint` in base 10: `none` as soon as a
character is not a decimal digit. -/
def parseDigits : List Char → Nat → Option Nat
  | [], acc => some acc
  | c :: cs, acc =>
    if 0x30 ≤ c.toNat ∧ c.toNat ≤ 0x39 then parseDigits cs (acc * 10 + (c.toNat - 0x30))
    else none

/-- Go's `strconv.ParseUint(s, 10, 64)`, with `none` for a returned error
(syntax error: empty or a non-digit; range error: the value exceeds
`2^64 - 1`). -/
def ParseUint (s : List Char) : Option Nat :=
  match s with
  | [] => none
  | _ :: _ =>
    match parseDigits s 0 with
    | none => none
    | some n => if n < 2 ^ 64 then some n else none

/-- Go's `strconv.ParseInt(s, 10, 64)`, with `none` for `err != nil`: an
optional sign, then `ParseUint`, then the range check against `2^63`. -/
def ParseInt (s : String) : Option Int :=
  match s.data with
  | [] => none
  | c :: cs =>
    let neg : Bool := c == '-'
    let digits := if c == '+' || c == '-' then cs else c :: cs
    match ParseUint digits with
    | none => none
    | some un =>
      if !neg && un ≥ 2 ^ 63 then none
      else if neg && un > 2 ^ 63 then none
      else some (if neg then -(un : Int) else (un : Int))

/-- The decimal digit `d` as a character. -/
def digitChar (d : Nat) : Char := Char.ofNat (0x30 + d)

/-- The digit loop of `strconv.FormatInt` in base 10: digits are produced
from the least significant one, in front of `acc`. The first argument bounds
the number of iterations. -/
def formatBits : Nat → Nat → List Char → List Char
  | 0, _, acc => acc
  | fuel + 1, u, acc =>
    if u < 10 then digitChar u :: acc
    else formatBits fuel (u / 10) (digitChar (u % 10) :: acc)

/-- The decimal digits of a natural number. -/
def formatNat (u : Nat) : List Char := formatBits (u + 1) u []

/-- Go's `strconv.Itoa`. -/
def Itoa (i : Int) : String :=
  if i < 0 then ⟨'-' :: formatNat i.natAbs⟩ else ⟨formatNat i.toNat⟩

/-- Go's `len(s)` of a string: its number of bytes. -/
def len (s : String) : Int := (s.utf8ByteSize : Nat)

/-- Two's-complement wrap of an `int64` result. -/
def wrapInt64 (x : Int) : Int := (x + 2 ^ 63) % 2 ^ 64 - 2 ^ 63

/-! ## The interpreter -/

/-- The function `handleResponse` of main.go, with the store, the clock and
the configuration made explicit. The result is `none` when `cmds[0]` is
evaluated on an empty `cmds` (index out of range), otherwise the reply and
the store after the call. -/
def handleResponse (cfg : Config) (redisMap : Store) (now : Int) (message : String) :
    Option (String × Store) :=
  let cmds := Fields (TrimSpace message)
  match cmds with
  | [] => none
  | cmd0 :: args =>
    if cmd0 = "ping" then
      some ("+PONG\r\n", redisMap)
    else if cmd0 = "echo" then
      if cmds.length < 2 then some ("$-1\r\n", redisMap)
      else some (Join args " " ++ "\r\n", redisMap)
    else if cmd0 = "set" then
      if cmds.length ≥ 3 then
        let key := cmds.getD 1 ""
        let value := cmds.getD 2 ""
        let expiryTime : Int :=
          if cmds.length ≥ 5 ∧ cmds.getD 3 "" = "PX" then
            match ParseInt (cmds.getD 4 "") with
            | some expiryMs => wrapInt64 (now + expiryMs)
            | none => 0
          else 0
        some ("+OK\r\n", redisMap.assign key ⟨value, expiryTime⟩)
      else some ("-ERR wrong number of arguments for 'set' command\r\n", redisMap)
    else if cmd0 = "get" then
      if cmds.length ≥ 2 then
        let key := cmds.getD 1 ""
        match redisMap key with
        | none => some ("$-1\r\n", redisMap.delete key)
        | some entry =>
          if entry.expires > 0 ∧ now > entry.expires then
            some ("$-1\r\n", redisMap.delete key)
          else
            some ("$" ++ Itoa (len entry.value) ++ "\r\n" ++ entry.value ++ "\r\n", redisMap)
      else some ("-ERR wrong number of arguments for 'get' command\r\n", redisMap)
    else if cmd0 = "config" then
      if cmds.length ≠ 3 then
        some ("-ERR wrong number of arguments for 'config' command\r\n", redisMap)
      else if cmds.getD 1 "" = "get" then
        if cmds.getD 2 "" = "dir" then
          some ("*2\r\n$3\r\ndir\r\n$" ++ Itoa (len cfg.dir) ++ "\r\n" ++ cfg.dir ++ "\r\n",
            redisMap)
        else if cmds.getD 2 "" = "dbfilename" then
          some ("*2\r\n$10\r\ndbfilename\r\n$" ++ Itoa (len cfg.dbfilename) ++ "\r\n" ++
            cfg.dbfilename ++ "\r\n", redisMap)
        else some ("$-1\r\n", redisMap)
      else some ("-ERR unknown command\r\n", redisMap)
    else some ("-ERR unknown command\r\n", redisMap)

/-- What `handleRequest` does with each line read from the client:
`handleResponse(strings.ToLower(message))`. -/
def processLine (lowerTable : Char → Char) (cfg : Config) (redisMap : Store) (now : Int)
    (line : String) : Option (String × Store) :=
  handleResponse cfg redisMap now (ToLower lowerTable line)

/-! ## Sessions and tokens -/

/-- A token of a command line: a non-empty string without white space. -/
def isToken (s : String) : Bool :=
  !s.data.isEmpty && s.data.all fun c => !isSpace c

/-- The words of a list, separated by one blank each. -/
def unwords : List (List Char) → List Char
  | [] => []
  | [a] => a
  | a :: b :: rest => a ++ ' ' :: unwords (b :: rest)

/-- Successive calls of `handleResponse` on the shared store, each with the
clock reading of its call: the replies in order and the final store, or
`none` when one of the calls fails. -/
def runSession (cfg : Config) : Store → List (Int × String) → Option (List String × Store)
  | s, [] => some ([], s)
  | s, (now, message) :: rest =>
    match handleResponse cfg s now message with
    | none => none
    | some (resp, s1) =>
      match runSession cfg s1 rest with
      | none => none
      | some (resps, s2) => some (resp :: resps, s2)

/-- The loop of `handleRequest` over the lines read from one client: every
line is lower-cased, handed to `handleResponse`, and the reply written. -/
def handleRequest (lowerTable : Char → Char) (cfg : Config) (s : Store)
    (lines : List (Int × String)) : Option (List String × Store) :=
  runSession cfg s (lines.map fun p => (p.1, ToLower lowerTable p.2))

/-- Whether a message is a `set` command that stores the key `k`: verb
`set`, first argument `k`, and at least one more argument. -/
def isSetOf (k : String) (message : String) : Bool :=
  match Fields (TrimSpace message) with
  | cmd0 :: key :: _ :: _ => cmd0 == "set" && key == k
  | _ => false

/-- A configuration for the examples. -/
def exampleConfig : Config := ⟨"/tmp/redis-data", "dump.rdb"⟩

/-! ## Wire format, letter case and line ends -/

/-- The five reply forms of the wire format, in the words of the spec: a
simple status `+<text>\r\n`, an error `-ERR <message>\r\n`, a bulk reply
`$<n>\r\n<value>\r\n` with `n` the byte length of the value, the null reply
`$-1\r\n`, and the two-element array
`*2\r\n$<len1>\r\n<name>\r\n$<len2>\r\n<value>\r\n`. -/
def WireReply (r : String) : Prop :=
  (∃ text : String, r = "+" ++ text ++ "\r\n") ∨
  (∃ msg : String, r = "-ERR " ++ msg ++ "\r\n") ∨
  (∃ value : String, r = "$" ++ Itoa (len value) ++ "\r\n" ++ value ++ "\r\n") ∨
  r = "$-1\r\n" ∨
  (∃ name value : String, r = "*2\r\n$" ++ Itoa (len name) ++ "\r\n" ++ name ++ "\r\n$" ++
    Itoa (len value) ++ "\r\n" ++ value ++ "\r\n")

/-- The number of occurrences of the line end `\r\n` in a text. -/
def countCRLF : List Char → Nat
  | [] => 0
  | [_] => 0
  | a :: b :: rest =>
    if a = '\r' ∧ b = '\n' then 1 + countCRLF rest else countCRLF (b :: rest)

/-- Every key and every stored value of the store is a token. -/
def TokenStore (s : Store) : Prop :=
  ∀ k e, s k = some e → isToken k = true ∧ isToken e.value = true

/-! ## Tokenisation -/

theorem isToken_iff (s : String) :
    isToken s = true ↔ s.data ≠ [] ∧ ∀ c ∈ s.data, isSpace c = false := by
  unfold isToken
  cases h : s.data <;> simp

theorem fieldsFrom_nonspace (w rest cur : List Char) (hw : ∀ c ∈ w, isSpace c = false) :
    fieldsFrom (w ++ rest) cur = fieldsFrom rest (w.reverse ++ cur) := by
  induction w generalizing cur with
  | nil => simp
  | cons c w ih =>
    have hc : isSpace c = false := hw c (List.mem_cons_self _ _)
    have hw2 : ∀ d ∈ w, isSpace d = false := fun d hd => hw d (List.mem_cons_of_mem _ hd)
    simp [fieldsFrom, hc, ih (c :: cur) hw2]

theorem fieldsFrom_spaces (sp cur : List Char) (hs : ∀ c ∈ sp, isSpace c = true) :
    fieldsFrom sp cur = fieldsFrom [] cur := by
  induction sp generalizing cur with
  | nil => rfl
  | cons c sp ih =>
    have hc : isSpace c = true := hs c (List.mem_cons_self _ _)
    have hs2 : ∀ d ∈ sp, isSpace d = true := fun d hd => hs d (List.mem_cons_of_mem _ hd)
    cases cur with
    | nil => simp [fieldsFrom, hc, ih [] hs2]
    | cons a cur => simp [fieldsFrom, hc, ih [] hs2]

theorem fieldsFrom_append_spaces (l sp cur : List Char) (hs : ∀ c ∈ sp, isSpace c = true) :
    fieldsFrom (l ++ sp) cur = fieldsFrom l cur := by
  induction l generalizing cur with
  | nil => simpa using fieldsFrom_spaces sp cur hs
  | cons c l ih =>
    have e : (c :: l) ++ sp = c :: (l ++ sp) := rfl
    rw [e]
    simp only [fieldsFrom, ih]

theorem fieldsFrom_dropWhile (l : List Char) :
    fieldsFrom (l.dropWhile isSpace) [] = fieldsFrom l [] := by
  induction l with
  | nil => rfl
  | cons c l ih =>
    cases hc : isSpace c
    · simp [List.dropWhile, hc]
    · simp [List.dropWhile, hc, fieldsFrom, ih]

theorem fieldsFrom_rdropWhile (l cur : List Char) :
    fieldsFrom ((l.reverse.dropWhile isSpace).reverse) cur = fieldsFrom l cur := by
  have hsplit : l = (l.reverse.dropWhile isSpace).reverse ++
      (l.reverse.takeWhile isSpace).reverse := by
    rw [← List.reverse_append, List.takeWhile_append_dropWhile, List.reverse_reverse]
  have hsp : ∀ c ∈ (l.reverse.takeWhile isSpace).reverse, isSpace c = true := by
    intro c hc
    exact List.mem_takeWhile_imp (List.mem_reverse.mp hc)
  conv_rhs => rw [hsplit]
  rw [fieldsFrom_append_spaces _ _ _ hsp]

/-- Trimming before splitting changes nothing: `Fields` already skips the
white space at both ends. -/
theorem Fields_TrimSpace (s : String) : Fields (TrimSpace s) = Fields s := by
  unfold Fields TrimSpace
  simp only
  rw [fieldsFrom_rdropWhile, fieldsFrom_dropWhile]

theorem fieldsFrom_unwords (ws : List (List Char))
    (h : ∀ w ∈ ws, w ≠ [] ∧ ∀ c ∈ w, isSpace c = false) :
    fieldsFrom (unwords ws) [] = ws := by
  induction ws with
  | nil => rfl
  | cons a ws ih =>
    obtain ⟨hne, hns⟩ := h a (List.mem_cons_self _ _)
    have hrest : ∀ w ∈ ws, w ≠ [] ∧ ∀ c ∈ w, isSpace c = false :=
      fun w hw => h w (List.mem_cons_of_mem _ hw)
    cases ws with
    | nil =>
      have := fieldsFrom_nonspace a [] [] hns
      simp only [List.append_nil] at this
      simp [unwords, this, fieldsFrom, hne]
    | cons b rest =>
      have hsp : isSpace ' ' = true := by decide
      simp only [unwords]
      rw [fieldsFrom_nonspace a _ [] hns]
      simp [fieldsFrom, hsp, hne]
      exact ih hrest

theorem Join_data (ws : List String) :
    (Join ws " ").data = unwords (ws.map String.data) := by
  induction ws with
  | nil => rfl
  | cons a ws ih =>
    cases ws with
    | nil => rfl
    | cons b rest =>
      simp only [Join, String.data_append, List.map_cons, unwords] at ih ⊢
      rw [ih]
      simp

/-- Splitting a line made of tokens separated by single blanks gives back
the tokens. -/
theorem Fields_Join (ws : List String) (h : ∀ w ∈ ws, isToken w = true) :
    Fields (TrimSpace (Join ws " ")) = ws := by
  rw [Fields_TrimSpace]
  unfold Fields
  rw [Join_data, fieldsFrom_unwords]
  · simp [List.map_map, Function.comp_def]
  · intro w hw
    obtain ⟨s, hs, rfl⟩ := List.mem_map.mp hw
    exact (isToken_iff s).mp (h s hs)

/-! ## One command at a time -/

theorem handleResponse_set3 (cfg : Config) (s : Store) (now : Int) (m k v : String)
    (h : Fields (TrimSpace m) = ["set", k, v]) :
    handleResponse cfg s now m = some ("+OK\r\n", s.assign k ⟨v, 0⟩) := by
  simp [handleResponse, h]

theorem handleResponse_set5 (cfg : Config) (s : Store) (now : Int) (m k v p x : String)
    (h : Fields (TrimSpace m) = ["set", k, v, p, x]) :
    handleResponse cfg s now m = some ("+OK\r\n", s.assign k ⟨v,
      if p = "PX" then
        match ParseInt x with
        | some expiryMs => wrapInt64 (now + expiryMs)
        | none => 0
      else 0⟩) := by
  simp [handleResponse, h]

theorem handleResponse_get (cfg : Config) (s : Store) (now : Int) (m k : String)
    (h : Fields (TrimSpace m) = ["get", k]) :
    handleResponse cfg s now m =
      match s k with
      | none => some ("$-1\r\n", s.delete k)
      | some entry =>
        if entry.expires > 0 ∧ now > entry.expires then some ("$-1\r\n", s.delete k)
        else some ("$" ++ Itoa (len entry.value) ++ "\r\n" ++ entry.value ++ "\r\n", s) := by
  simp [handleResponse, h]

theorem line_set3 (k v : String) : "set " ++ k ++ " " ++ v = Join ["set", k, v] " " := by
  apply String.ext
  simp [Join, String.data_append]

theorem line_get (k : String) : "get " ++ k = Join ["get", k] " " := by
  apply String.ext
  simp [Join, String.data_append]

theorem line_set5 (k v p x : String) :
    "set " ++ k ++ " " ++ v ++ " " ++ p ++ " " ++ x = Join ["set", k, v, p, x] " " := by
  apply String.ext
  simp [Join, String.data_append]

/-! ## Decimal integers -/

theorem digitChar_toNat (d : Nat) (h : d < 10) : (digitChar d).toNat = 0x30 + d := by
  interval_cases d <;> rfl

theorem parseDigits_digit (d : Nat) (h : d < 10) (r : List Char) (a : Nat) :
    parseDigits (digitChar d :: r) a = parseDigits r (a * 10 + d) := by
  have := digitChar_toNat d h
  simp only [parseDigits, this]
  rw [if_pos (by omega)]
  congr 2
  omega

theorem formatBits_spec (fuel u : Nat) (acc : List Char) (h : u < fuel) :
    ∃ ds : List Char, formatBits fuel u acc = ds ++ acc ∧ ds ≠ [] ∧
      (∀ c ∈ ds, 0x30 ≤ c.toNat ∧ c.toNat ≤ 0x39) ∧
      ∀ r, parseDigits (ds ++ r) 0 = parseDigits r u := by
  induction fuel generalizing u acc with
  | zero => omega
  | succ fuel ih =>
    by_cases hu : u < 10
    · refine ⟨[digitChar u], ?_, by simp, ?_, ?_⟩
      · simp [formatBits, hu]
      · intro c hc
        have := digitChar_toNat u hu
        simp only [List.mem_singleton] at hc
        subst hc
        omega
      · intro r
        simpa using parseDigits_digit u hu r 0
    · obtain ⟨ds, h1, h2, h3, h4⟩ := ih (u / 10) (digitChar (u % 10) :: acc) (by omega)
      have hm : u % 10 < 10 := Nat.mod_lt _ (by decide)
      refine ⟨ds ++ [digitChar (u % 10)], ?_, by simp, ?_, ?_⟩
      · simp [formatBits, hu, h1]
      · intro c hc
        rcases List.mem_append.mp hc with hc | hc
        · exact h3 c hc
        · have := digitChar_toNat (u % 10) hm
          simp only [List.mem_singleton] at hc
          subst hc
          omega
      · intro r
        rw [List.append_assoc, h4, List.singleton_append, parseDigits_digit _ hm]
        congr 1
        omega

theorem formatNat_spec (u : Nat) :
    formatNat u ≠ [] ∧ (∀ c ∈ formatNat u, 0x30 ≤ c.toNat ∧ c.toNat ≤ 0x39) ∧
      parseDigits (formatNat u) 0 = some u := by
  obtain ⟨ds, h1, h2, h3, h4⟩ := formatBits_spec (u + 1) u [] (by omega)
  have e : formatNat u = ds := by simpa [formatNat] using h1
  refine ⟨e ▸ h2, e ▸ h3, ?_⟩
  have := h4 []
  simpa [e, parseDigits] using this

theorem ParseUint_formatNat (u : Nat) (h : u < 2 ^ 64) : ParseUint (formatNat u) = some u := by
  obtain ⟨h1, -, h3⟩ := formatNat_spec u
  unfold ParseUint
  cases hf : formatNat u with
  | nil => exact absurd hf h1
  | cons c cs =>
    rw [hf] at h3
    simp only [h3]
    exact if_pos h

/-- Parsing the decimal rendering of an `int64` gives the value back. -/
theorem ParseInt_Itoa (n : Int) (hlo : -2 ^ 63 ≤ n) (hhi : n < 2 ^ 63) :
    ParseInt (Itoa n) = some n := by
  by_cases hn : n < 0
  · have hu : n.natAbs < 2 ^ 64 := by omega
    simp only [ParseInt, Itoa, if_pos hn]
    simp [ParseUint_formatNat _ hu]
    refine ⟨by omega, ?_⟩
    rw [abs_of_neg hn]
    omega
  · obtain ⟨h1, h2, -⟩ := formatNat_spec n.toNat
    have hu : n.toNat < 2 ^ 64 := by omega
    simp only [ParseInt, Itoa, if_neg hn]
    cases hf : formatNat n.toNat with
    | nil => exact absurd hf h1
    | cons c cs =>
      have hc := h2 c (by simp [hf])
      have hplus : (c == '+') = false := by
        rw [beq_eq_false_iff_ne]; rintro rfl; revert hc; decide
      have hminus : (c == '-') = false := by
        rw [beq_eq_false_iff_ne]; rintro rfl; revert hc; decide
      simp only [hplus, hminus, Bool.or_self, Bool.false_eq_true, if_false]
      rw [← hf, ParseUint_formatNat _ hu]
      simp
      omega

theorem isSpace_digit (c : Char) (h : 0x30 ≤ c.toNat ∧ c.toNat ≤ 0x39) : isSpace c = false := by
  unfold isSpace
  simp
  rw [if_pos (by omega)]
  omega

/-- The decimal rendering of an integer is a token. -/
theorem isToken_Itoa (n : Int) : isToken (Itoa n) = true := by
  rw [isToken_iff]
  obtain ⟨h1, h2, -⟩ := formatNat_spec n.natAbs
  obtain ⟨h1', h2', -⟩ := formatNat_spec n.toNat
  unfold Itoa
  split
  · refine ⟨by simp, ?_⟩
    intro c hc
    simp only [List.mem_cons] at hc
    rcases hc with rfl | hc
    · decide
    · exact isSpace_digit c (h2 c hc)
  · exact ⟨h1', fun c hc => isSpace_digit c (h2' c hc)⟩

/-! ## The claims -/

theorem Fields_set3 (k v : String) (hk : isToken k = true) (hv : isToken v = true) :
    Fields (TrimSpace ("set " ++ k ++ " " ++ v)) = ["set", k, v] := by
  rw [line_set3]
  apply Fields_Join
  intro w hw
  simp only [List.mem_cons, List.mem_singleton, List.not_mem_nil, or_false] at hw
  rcases hw with rfl | rfl | rfl
  · decide
  · exact hk
  · exact hv

theorem Fields_get (k : String) (hk : isToken k = true) :
    Fields (TrimSpace ("get " ++ k)) = ["get", k] := by
  rw [line_get]
  apply Fields_Join
  intro w hw
  simp only [List.mem_cons, List.mem_singleton, List.not_mem_nil, or_false] at hw
  rcases hw with rfl | rfl
  · decide
  · exact hk

theorem Fields_set5 (k v p x : String) (hk : isToken k = true) (hv : isToken v = true)
    (hp : isToken p = true) (hx : isToken x = true) :
    Fields (TrimSpace ("set " ++ k ++ " " ++ v ++ " " ++ p ++ " " ++ x)) =
      ["set", k, v, p, x] := by
  rw [line_set5]
  apply Fields_Join
  intro w hw
  simp only [List.mem_cons, List.mem_singleton, List.not_mem_nil, or_false] at hw
  rcases hw with rfl | rfl | rfl | rfl | rfl
  · decide
  · exact hk
  · exact hv
  · exact hp
  · exact hx

/-- A `get` of a key whose entry has no expiry returns the bulk reply, at
any clock reading. -/
theorem get_assigned_noexpiry (cfg : Config) (s : Store) (now : Int) (k v : String)
    (hk : isToken k = true) :
    handleResponse cfg (s.assign k ⟨v, 0⟩) now ("get " ++ k) =
      some ("$" ++ Itoa (len v) ++ "\r\n" ++ v ++ "\r\n", s.assign k ⟨v, 0⟩) := by
  rw [handleResponse_get cfg _ now _ k (Fields_get k hk)]
  simp [Store.assign]

/-- Claim C1. SET/GET round trip: for tokens `k` and `v`, `set k v` replies
`+OK\r\n` and a following `get k`, at any clock reading, replies the bulk
string `$<byte length of v>\r\n<v>\r\n`. -/
theorem set_get_roundtrip (cfg : Config) (s : Store) (t0 t1 : Int) (k v : String)
    (hk : isToken k = true) (hv : isToken v = true) (_ht : t0 ≤ t1) :
    ∃ s1, handleResponse cfg s t0 ("set " ++ k ++ " " ++ v) = some ("+OK\r\n", s1) ∧
      handleResponse cfg s1 t1 ("get " ++ k) =
        some ("$" ++ Itoa (len v) ++ "\r\n" ++ v ++ "\r\n", s1) :=
  ⟨s.assign k ⟨v, 0⟩, handleResponse_set3 cfg s t0 _ k v (Fields_set3 k v hk hv),
    get_assigned_noexpiry cfg s t1 k v hk⟩

/-- Witness of `set_get_roundtrip`: `set foo bar` then `get foo` replies
`$3\r\nbar\r\n`. -/
theorem set_get_roundtrip_witness :
    ∃ s1, handleResponse exampleConfig Store.empty 1000 "set foo bar" = some ("+OK\r\n", s1) ∧
      handleResponse exampleConfig s1 1001 "get foo" = some ("$3\r\nbar\r\n", s1) :=
  set_get_roundtrip exampleConfig Store.empty 1000 1001 "foo" "bar" (by decide) (by decide)
    (by decide)

/-- Claim C2. Full postcondition of GET for a key token `k`: when `k` is absent, or
its entry has `expires > 0` and `now > expires`, the reply is `$-1\r\n` and
the key is deleted from the store; otherwise the reply is the bulk string of
the stored value and the store is unchanged. The null reply with `k` absent
afterwards happens in the first case only, and a GET at `now = expires`
returns the value. -/
theorem get_postcondition (cfg : Config) (s : Store) (now : Int) (k : String)
    (hk : isToken k = true) :
    ((s k = none ∨ ∃ e, s k = some e ∧ e.expires > 0 ∧ now > e.expires) →
      handleResponse cfg s now ("get " ++ k) = some ("$-1\r\n", s.delete k) ∧
        (s.delete k) k = none) ∧
    (¬ (s k = none ∨ ∃ e, s k = some e ∧ e.expires > 0 ∧ now > e.expires) →
      ∃ e, s k = some e ∧ handleResponse cfg s now ("get " ++ k) =
        some ("$" ++ Itoa (len e.value) ++ "\r\n" ++ e.value ++ "\r\n", s)) ∧
    ((∃ s1, handleResponse cfg s now ("get " ++ k) = some ("$-1\r\n", s1) ∧ s1 k = none) ↔
      (s k = none ∨ ∃ e, s k = some e ∧ e.expires > 0 ∧ now > e.expires)) ∧
    (∀ e, s k = some e → now = e.expires →
      handleResponse cfg s now ("get " ++ k) =
        some ("$" ++ Itoa (len e.value) ++ "\r\n" ++ e.value ++ "\r\n", s)) := by
  have hget := handleResponse_get cfg s now _ k (Fields_get k hk)
  have hdel : (s.delete k) k = none := by simp [Store.delete]
  cases hs : s k with
  | none =>
    rw [hs] at hget
    simp only at hget
    refine ⟨fun _ => ⟨hget, hdel⟩, fun h => absurd (Or.inl rfl) h, ?_, ?_⟩
    · exact ⟨fun _ => Or.inl rfl, fun _ => ⟨_, hget, hdel⟩⟩
    · intro e he; cases he
  | some e =>
    rw [hs] at hget
    simp only at hget
    by_cases hexp : e.expires > 0 ∧ now > e.expires
    · rw [if_pos hexp] at hget
      have hc : (some e = none ∨ ∃ e', some e = some e' ∧ e'.expires > 0 ∧ now > e'.expires) :=
        Or.inr ⟨e, rfl, hexp⟩
      refine ⟨fun _ => ⟨hget, hdel⟩, fun h => absurd hc h, ?_, ?_⟩
      · exact ⟨fun _ => hc, fun _ => ⟨_, hget, hdel⟩⟩
      · intro e' he' hnow
        cases he'
        omega
    · rw [if_neg hexp] at hget
      have hc : ¬ (some e = none ∨
          ∃ e', some e = some e' ∧ e'.expires > 0 ∧ now > e'.expires) := by
        rintro (h | ⟨e', he', h⟩)
        · cases h
        · cases he'; exact hexp h
      refine ⟨fun h => absurd h hc, fun _ => ⟨e, rfl, hget⟩, ?_, ?_⟩
      · constructor
        · rintro ⟨s1, h1, h2⟩
          rw [hget] at h1
          simp only [Option.some.injEq, Prod.mk.injEq] at h1
          rw [← h1.2, hs] at h2
          cases h2
        · intro h; exact absurd h hc
      · intro e' he' _
        cases he'
        exact hget

/-- Witness of `get_postcondition`: the key `foo` in the empty store. -/
theorem get_postcondition_witness :
    handleResponse exampleConfig Store.empty 5 ("get " ++ "foo") =
      some ("$-1\r\n", Store.empty.delete "foo") ∧ (Store.empty.delete "foo") "foo" = none :=
  (get_postcondition exampleConfig Store.empty 5 "foo" (by decide)).1 (Or.inl rfl)

theorem wrapInt64_of_range (x : Int) (hlo : -2 ^ 63 ≤ x) (hhi : x < 2 ^ 63) :
    wrapInt64 x = x := by
  unfold wrapInt64
  omega

theorem Fields_setPX (k v x : String) (hk : isToken k = true) (hv : isToken v = true)
    (hx : isToken x = true) :
    Fields (TrimSpace ("set " ++ k ++ " " ++ v ++ " PX " ++ x)) = ["set", k, v, "PX", x] := by
  have e : "set " ++ k ++ " " ++ v ++ " PX " ++ x =
      "set " ++ k ++ " " ++ v ++ " " ++ "PX" ++ " " ++ x := by
    apply String.ext
    simp [String.data_append]
  rw [e]
  exact Fields_set5 k v "PX" x hk hv (by decide) hx

/-- The effect of `set k v PX x` on tokens: the reply is `+OK\r\n` and the
entry of `k` carries `now + ms` (wrapped) when `x` parses as `ms`, and no
expiry otherwise. -/
theorem handleResponse_setPX (cfg : Config) (s : Store) (now : Int) (k v x : String)
    (hk : isToken k = true) (hv : isToken v = true) (hx : isToken x = true) :
    handleResponse cfg s now ("set " ++ k ++ " " ++ v ++ " PX " ++ x) =
      some ("+OK\r\n", s.assign k ⟨v,
        match ParseInt x with
        | some expiryMs => wrapInt64 (now + expiryMs)
        | none => 0⟩) := by
  rw [handleResponse_set5 cfg s now _ k v "PX" x (Fields_setPX k v x hk hv hx)]
  simp

/-- A `get` of a key that was just assigned: the null reply and removal when
the expiry is positive and strictly before `now`, else the bulk reply. -/
theorem get_assigned (cfg : Config) (s : Store) (now : Int) (k v : String) (exp : Int)
    (hk : isToken k = true) :
    handleResponse cfg (s.assign k ⟨v, exp⟩) now ("get " ++ k) =
      if exp > 0 ∧ now > exp then some ("$-1\r\n", (s.assign k ⟨v, exp⟩).delete k)
      else some ("$" ++ Itoa (len v) ++ "\r\n" ++ v ++ "\r\n", s.assign k ⟨v, exp⟩) := by
  rw [handleResponse_get cfg _ now _ k (Fields_get k hk)]
  simp [Store.assign]

/-- Claim C3. Expiry of SET with PX: for tokens `k`, `v`, an integer `ttl > 0`
and a clock reading `t0` (milliseconds since the epoch, so `0 ≤ t0`) with
`t0 + ttl` representable in `int64`: `set k v PX <ttl>` at `t0` replies
`+OK\r\n` and stores the expiry instant exactly `t0 + ttl`; a `get k` at any
`t1 > t0 + ttl` replies `$-1\r\n`, and at any `t1 ≤ t0 + ttl` (in particular
`t0 ≤ t1 ≤ t0 + ttl`) replies the bulk string of `v`. -/
theorem set_px_expiry (cfg : Config) (s : Store) (t0 ttl : Int) (k v : String)
    (hk : isToken k = true) (hv : isToken v = true) (hclock : 0 ≤ t0) (httl : 0 < ttl)
    (hrep : t0 + ttl < 2 ^ 63) :
    ∃ s1, handleResponse cfg s t0 ("set " ++ k ++ " " ++ v ++ " PX " ++ Itoa ttl) =
        some ("+OK\r\n", s1) ∧
      s1 k = some ⟨v, t0 + ttl⟩ ∧
      (∀ t1, t1 > t0 + ttl →
        handleResponse cfg s1 t1 ("get " ++ k) = some ("$-1\r\n", s1.delete k)) ∧
      (∀ t1, t1 ≤ t0 + ttl →
        handleResponse cfg s1 t1 ("get " ++ k) =
          some ("$" ++ Itoa (len v) ++ "\r\n" ++ v ++ "\r\n", s1)) := by
  have hparse : ttl < 2 ^ 63 := by omega
  have hpos : 0 < t0 + ttl := by omega
  have hp : ParseInt (Itoa ttl) = some ttl := ParseInt_Itoa ttl (by omega) hparse
  have hw : wrapInt64 (t0 + ttl) = t0 + ttl := wrapInt64_of_range _ (by omega) hrep
  refine ⟨s.assign k ⟨v, t0 + ttl⟩, ?_, by simp [Store.assign], ?_, ?_⟩
  · rw [handleResponse_setPX cfg s t0 k v _ hk hv (isToken_Itoa ttl), hp]
    simp only [hw]
  · intro t1 h1
    rw [get_assigned cfg s t1 k v _ hk, if_pos ⟨hpos, h1⟩]
  · intro t1 h1
    rw [get_assigned cfg s t1 k v _ hk, if_neg (by omega)]

/-- Witness of `set_px_expiry`: `set foo bar PX 100` at clock `1000`. -/
theorem set_px_expiry_witness :
    ∃ s1, handleResponse exampleConfig Store.empty 1000 "set foo bar PX 100" =
        some ("+OK\r\n", s1) ∧
      s1 "foo" = some ⟨"bar", 1100⟩ ∧
      (∀ t1, t1 > 1100 →
        handleResponse exampleConfig s1 t1 "get foo" = some ("$-1\r\n", s1.delete "foo")) ∧
      (∀ t1, t1 ≤ 1100 →
        handleResponse exampleConfig s1 t1 "get foo" = some ("$3\r\nbar\r\n", s1)) :=
  set_px_expiry exampleConfig Store.empty 1000 100 "foo" "bar" (by decide) (by decide)
    (by decide) (by decide) (by decide)

/-- Claim C4, the failing run. On the per-line path `SET foo bar PX 100` is
lower-cased before it is interpreted, the token `px` is not the literal
`PX`, and no expiry is stored: `GET foo` 150 ms later replies the value
instead of `$-1\r\n`. -/
theorem px_ignored_on_line_path (lowerTable : Char → Char) :
    (handleRequest lowerTable exampleConfig Store.empty
        [(1000, "SET foo bar PX 100"), (1150, "GET foo")]).map Prod.fst =
      some ["+OK\r\n", "$3\r\nbar\r\n"] := by
  rfl

theorem ToLower_append (t : Char → Char) (a b : String) :
    ToLower t (a ++ b) = ToLower t a ++ ToLower t b := by
  apply String.ext
  simp [ToLower, String.data_append]

theorem isSpace_lowered_letter (n : Nat) (h1 : 0x41 ≤ n) (h2 : n ≤ 0x5A) :
    isSpace (Char.ofNat (n + 32)) = false := by
  interval_cases n <;> rfl

/-- Lower-casing keeps a token a token, for a table that maps no non-space
character to white space. -/
theorem isToken_ToLower (t : Char → Char) (hT : ∀ c, isSpace c = false → isSpace (t c) = false)
    (s : String) (hs : isToken s = true) : isToken (ToLower t s) = true := by
  rw [isToken_iff] at hs ⊢
  obtain ⟨hne, hns⟩ := hs
  constructor
  · simpa [ToLower] using hne
  · intro c hc
    simp only [ToLower, List.mem_map] at hc
    obtain ⟨c0, hc0, rfl⟩ := hc
    have h0 := hns c0 hc0
    split_ifs with ha hu
    · exact isSpace_lowered_letter _ hu.1 hu.2
    · exact h0
    · exact hT c0 h0

/-- Claim C5, counterexample. On the per-line path `SET foo Bar` followed at once
by `GET foo` replies `$3\r\nbar\r\n`: the value comes back lower-cased, not
byte for byte. -/
theorem value_fidelity_counterexample :
    (handleRequest (fun c => c) exampleConfig Store.empty
        [(1000, "SET foo Bar"), (1000, "GET foo")]).map Prod.fst =
      some ["+OK\r\n", "$3\r\nbar\r\n"] ∧
    "$3\r\nbar\r\n" ≠ "$" ++ Itoa (len "Bar") ++ "\r\n" ++ "Bar" ++ "\r\n" := by
  decide

/-- Claim C5, amended. On the per-line path, for tokens `k` and `v`, `SET k v`
followed by `GET k` replies the bulk string of the lower-cased value
`ToLower v`; it is `v` byte for byte when `v` is its own lower-casing. -/
theorem line_set_get_lowercased (t : Char → Char)
    (hT : ∀ c, isSpace c = false → isSpace (t c) = false) (cfg : Config) (s : Store)
    (t0 t1 : Int) (k v : String) (hk : isToken k = true) (hv : isToken v = true) :
    (∃ s1, processLine t cfg s t0 ("SET " ++ k ++ " " ++ v) = some ("+OK\r\n", s1) ∧
      processLine t cfg s1 t1 ("GET " ++ k) =
        some ("$" ++ Itoa (len (ToLower t v)) ++ "\r\n" ++ ToLower t v ++ "\r\n", s1)) ∧
    (ToLower t v = v →
      ∃ s1, processLine t cfg s t0 ("SET " ++ k ++ " " ++ v) = some ("+OK\r\n", s1) ∧
        processLine t cfg s1 t1 ("GET " ++ k) =
          some ("$" ++ Itoa (len v) ++ "\r\n" ++ v ++ "\r\n", s1)) := by
  have hk2 := isToken_ToLower t hT k hk
  have hv2 := isToken_ToLower t hT v hv
  have e1 : ToLower t ("SET " ++ k ++ " " ++ v) = "set " ++ ToLower t k ++ " " ++ ToLower t v := by
    rw [ToLower_append, ToLower_append, ToLower_append]
    rfl
  have e2 : ToLower t ("GET " ++ k) = "get " ++ ToLower t k := by
    rw [ToLower_append]
    rfl
  have main : ∃ s1, processLine t cfg s t0 ("SET " ++ k ++ " " ++ v) = some ("+OK\r\n", s1) ∧
      processLine t cfg s1 t1 ("GET " ++ k) =
        some ("$" ++ Itoa (len (ToLower t v)) ++ "\r\n" ++ ToLower t v ++ "\r\n", s1) := by
    refine ⟨s.assign (ToLower t k) ⟨ToLower t v, 0⟩, ?_, ?_⟩
    · unfold processLine
      rw [e1]
      exact handleResponse_set3 cfg s t0 _ _ _ (Fields_set3 _ _ hk2 hv2)
    · unfold processLine
      rw [e2]
      exact get_assigned_noexpiry cfg s t1 _ _ hk2
  refine ⟨main, fun hfix => ?_⟩
  rw [hfix] at main
  exact main

/-- Witness of `line_set_get_lowercased`: `SET Foo Bar` then `GET Foo`. -/
theorem line_set_get_lowercased_witness :
    ∃ s1, processLine (fun c => c) exampleConfig Store.empty 1000 "SET Foo Bar" =
        some ("+OK\r\n", s1) ∧
      processLine (fun c => c) exampleConfig s1 1000 "GET Foo" = some ("$3\r\nbar\r\n", s1) :=
  (line_set_get_lowercased (fun c => c) (fun _ h => h) exampleConfig Store.empty 1000 1000
    "Foo" "Bar" (by decide) (by decide)).1

/-- Claim C6. SET overwrites unconditionally: whatever the first `set k v1` or
`set k v1 PX x` stored, after `set k v2` the entry of `k` is `v2` with no
expiry, and `get k` replies the bulk string of `v2` at every clock reading. -/
theorem set_overwrites (cfg : Config) (s : Store) (t0 t1 : Int) (k v1 v2 x : String)
    (hk : isToken k = true) (hv1 : isToken v1 = true) (hv2 : isToken v2 = true)
    (hx : isToken x = true) (m1 : String)
    (hm1 : m1 = "set " ++ k ++ " " ++ v1 ∨ m1 = "set " ++ k ++ " " ++ v1 ++ " PX " ++ x) :
    ∃ s1 s2, handleResponse cfg s t0 m1 = some ("+OK\r\n", s1) ∧
      handleResponse cfg s1 t1 ("set " ++ k ++ " " ++ v2) = some ("+OK\r\n", s2) ∧
      s2 k = some ⟨v2, 0⟩ ∧
      ∀ t2, handleResponse cfg s2 t2 ("get " ++ k) =
        some ("$" ++ Itoa (len v2) ++ "\r\n" ++ v2 ++ "\r\n", s2) := by
  have h2 : ∀ s1 : Store, handleResponse cfg s1 t1 ("set " ++ k ++ " " ++ v2) =
      some ("+OK\r\n", s1.assign k ⟨v2, 0⟩) :=
    fun s1 => handleResponse_set3 cfg s1 t1 _ k v2 (Fields_set3 k v2 hk hv2)
  rcases hm1 with rfl | rfl
  · exact ⟨_, _, handleResponse_set3 cfg s t0 _ k v1 (Fields_set3 k v1 hk hv1), h2 _,
      by simp [Store.assign], fun t2 => get_assigned_noexpiry cfg _ t2 k v2 hk⟩
  · exact ⟨_, _, handleResponse_setPX cfg s t0 k v1 x hk hv1 hx, h2 _,
      by simp [Store.assign], fun t2 => get_assigned_noexpiry cfg _ t2 k v2 hk⟩

/-- Witness of `set_overwrites`: `set foo old PX 100`, then `set foo new`. -/
theorem set_overwrites_witness :
    ∃ s1 s2, handleResponse exampleConfig Store.empty 1000 "set foo old PX 100" =
        some ("+OK\r\n", s1) ∧
      handleResponse exampleConfig s1 1001 "set foo new" = some ("+OK\r\n", s2) ∧
      s2 "foo" = some ⟨"new", 0⟩ ∧
      ∀ t2, handleResponse exampleConfig s2 t2 "get foo" = some ("$3\r\nnew\r\n", s2) :=
  set_overwrites exampleConfig Store.empty 1000 1001 "foo" "old" "new" "100" (by decide)
    (by decide) (by decide) (by decide) "set foo old PX 100" (Or.inr (by decide))

/-- A bulk reply is never the null reply: its length field starts with a
digit. -/
theorem bulk_ne_null (v : String) :
    "$" ++ Itoa (len v) ++ "\r\n" ++ v ++ "\r\n" ≠ "$-1\r\n" := by
  intro h
  have hd := congrArg String.data h
  obtain ⟨h1, h2, -⟩ := formatNat_spec (len v).toNat
  have hlen : ¬ (len v < 0) := by unfold len; omega
  simp only [String.data_append, Itoa, if_neg hlen] at hd
  cases hf : formatNat (len v).toNat with
  | nil => exact h1 hf
  | cons c cs =>
    have hc := h2 c (by simp [hf])
    rw [hf] at hd
    have hd2 : '$' :: c :: (cs ++ "\r\n".data ++ v.data ++ "\r\n".data) =
        ['$', '-', '1', '\r', '\n'] := by
      simpa using hd
    injection hd2 with _ hd3
    injection hd3 with hd4 _
    subst hd4
    revert hc
    decide

theorem snd_of_some_eq {r r1 : String} {s s1 : Store} (h : some (r, s) = some (r1, s1)) :
    s1 = s := by
  injection h with h
  injection h with _ h
  exact h.symm

/-- The store after one command: unchanged, or with one key deleted, or, for
a `set` with at least two arguments, with the first argument assigned. -/
theorem handleResponse_store (cfg : Config) (s : Store) (now : Int) (m r : String) (s1 : Store)
    (h : handleResponse cfg s now m = some (r, s1)) :
    s1 = s ∨ (∃ key, s1 = s.delete key) ∨
      ∃ key v rest e, Fields (TrimSpace m) = "set" :: key :: v :: rest ∧ s1 = s.assign key e := by
  unfold handleResponse at h
  generalize Fields (TrimSpace m) = cmds at h ⊢
  cases cmds with
  | nil => simp at h
  | cons c0 args =>
    simp only at h
    by_cases h1 : c0 = "ping"
    · rw [if_pos h1] at h
      exact Or.inl (snd_of_some_eq h)
    rw [if_neg h1] at h
    by_cases h2 : c0 = "echo"
    · rw [if_pos h2] at h
      split_ifs at h <;> exact Or.inl (snd_of_some_eq h)
    rw [if_neg h2] at h
    by_cases h3 : c0 = "set"
    · rw [if_pos h3] at h
      by_cases hl : (c0 :: args).length ≥ 3
      · rw [if_pos hl] at h
        rcases args with _ | ⟨a, _ | ⟨b, rest⟩⟩
        · simp at hl
        · simp at hl
        · right; right
          exact ⟨a, b, rest, _, by rw [h3], snd_of_some_eq h⟩
      · rw [if_neg hl] at h
        exact Or.inl (snd_of_some_eq h)
    rw [if_neg h3] at h
    by_cases h4 : c0 = "get"
    · rw [if_pos h4] at h
      by_cases hl : (c0 :: args).length ≥ 2
      · rw [if_pos hl] at h
        split at h
        · exact Or.inr (Or.inl ⟨_, snd_of_some_eq h⟩)
        · split_ifs at h
          · exact Or.inr (Or.inl ⟨_, snd_of_some_eq h⟩)
          · exact Or.inl (snd_of_some_eq h)
      · rw [if_neg hl] at h
        exact Or.inl (snd_of_some_eq h)
    rw [if_neg h4] at h
    split_ifs at h <;> exact Or.inl (snd_of_some_eq h)

/-- A command that is not a SET of `k` leaves an absent key `k` absent. -/
theorem absent_preserved (cfg : Config) (s : Store) (now : Int) (m k r : String) (s1 : Store)
    (h : handleResponse cfg s now m = some (r, s1)) (hns : isSetOf k m = false)
    (hk : s k = none) : s1 k = none := by
  rcases handleResponse_store cfg s now m r s1 h with rfl | ⟨key, rfl⟩ | ⟨key, v, rest, e, hf, rfl⟩
  · exact hk
  · simp only [Store.delete]
    split_ifs <;> simp [hk]
  · have hne : key ≠ k := by
      intro hkey
      simp [isSetOf, hf, hkey] at hns
    simp only [Store.assign]
    rw [if_neg (fun hx => hne hx.symm)]
    exact hk

/-- A session without a SET of `k` leaves an absent key `k` absent. -/
theorem runSession_absent (cfg : Config) (k : String) (cmds : List (Int × String)) :
    ∀ (s : Store) (rs : List String) (s2 : Store),
      (∀ c ∈ cmds, isSetOf k c.2 = false) → runSession cfg s cmds = some (rs, s2) →
      s k = none → s2 k = none := by
  induction cmds with
  | nil =>
    intro s rs s2 _ hrun hk
    simp only [runSession, Option.some.injEq, Prod.mk.injEq] at hrun
    rw [← hrun.2]
    exact hk
  | cons c rest ih =>
    intro s rs s2 hno hrun hk
    obtain ⟨now, m⟩ := c
    simp only [runSession] at hrun
    cases h1 : handleResponse cfg s now m with
    | none => simp [h1] at hrun
    | some p =>
      obtain ⟨r, s1⟩ := p
      rw [h1] at hrun
      simp only at hrun
      cases h2 : runSession cfg s1 rest with
      | none => simp [h2] at hrun
      | some q =>
        obtain ⟨rs', s2'⟩ := q
        rw [h2] at hrun
        simp only [Option.some.injEq, Prod.mk.injEq] at hrun
        rw [← hrun.2]
        exact ih s1 rs' s2' (fun c hc => hno c (List.mem_cons_of_mem _ hc)) h2
          (absent_preserved cfg s now m k r s1 h1 (hno (now, m) (List.mem_cons_self _ _)) hk)

/-- Claim C7. Once a `get k` has replied `$-1\r\n`, every `get k` after any
session of further commands without a SET of `k` replies `$-1\r\n` again. -/
theorem expired_stays_absent (cfg : Config) (s : Store) (t : Int) (k : String)
    (hk : isToken k = true) (s1 : Store)
    (hget : handleResponse cfg s t ("get " ++ k) = some ("$-1\r\n", s1))
    (cmds : List (Int × String)) (hno : ∀ c ∈ cmds, isSetOf k c.2 = false)
    (rs : List String) (s2 : Store) (hrun : runSession cfg s1 cmds = some (rs, s2))
    (t2 : Int) :
    s2 k = none ∧ handleResponse cfg s2 t2 ("get " ++ k) = some ("$-1\r\n", s2.delete k) := by
  have hg := handleResponse_get cfg s t _ k (Fields_get k hk)
  have hdel : ∀ m : Store, (m.delete k) k = none := fun m => by simp [Store.delete]
  have h1 : s1 k = none := by
    rw [hg] at hget
    split at hget
    · rw [snd_of_some_eq hget]
      exact hdel s
    · split_ifs at hget
      · rw [snd_of_some_eq hget]
        exact hdel s
      · injection hget with hget
        injection hget with hr _
        exact absurd hr (bulk_ne_null _)
  have h2 : s2 k = none := runSession_absent cfg k cmds s1 rs s2 hno hrun h1
  refine ⟨h2, ?_⟩
  rw [handleResponse_get cfg s2 t2 _ k (Fields_get k hk), h2]

/-- Witness of `expired_stays_absent`: `foo` is seen expired at clock `1200`;
after `ping` and a SET of another key, `get foo` is still null. -/
theorem expired_stays_absent_witness :
    (((Store.empty.assign "foo" ⟨"bar", 1100⟩).delete "foo").assign "other" ⟨"x", 0⟩) "foo" =
        none ∧
      handleResponse exampleConfig
          (((Store.empty.assign "foo" ⟨"bar", 1100⟩).delete "foo").assign "other" ⟨"x", 0⟩)
          1300 "get foo" =
        some ("$-1\r\n",
          (((Store.empty.assign "foo" ⟨"bar", 1100⟩).delete "foo").assign "other"
            ⟨"x", 0⟩).delete "foo") :=
  expired_stays_absent exampleConfig (Store.empty.assign "foo" ⟨"bar", 1100⟩) 1200 "foo"
    (by decide) ((Store.empty.assign "foo" ⟨"bar", 1100⟩).delete "foo") rfl
    [(1250, "ping"), (1260, "set other x")] (by decide) ["+PONG\r\n", "+OK\r\n"] _ rfl 1300

/-- Claim C8, counterexample. `set foo bar PX 0` at clock `1000` stores the expiry
instant `1000`, and `get foo` one millisecond later replies `$-1\r\n`; a
negative value does the same at once. -/
theorem px_nonpositive_counterexample :
    (runSession exampleConfig Store.empty
        [(1000, "set foo bar PX 0"), (1001, "get foo")]).map Prod.fst =
      some ["+OK\r\n", "$-1\r\n"] ∧
    (runSession exampleConfig Store.empty
        [(1000, "set foo bar PX -5"), (1000, "get foo")]).map Prod.fst =
      some ["+OK\r\n", "$-1\r\n"] ∧
    Itoa 0 = "0" ∧ Itoa (-5) = "-5" ∧ (1000 : Int) ≤ 1001 := by
  decide

/-- Claim C8, amended. For tokens `k`, `v` and an integer `n ≤ 0` with `n` and
`t0 + n` in the `int64` range, `set k v PX <n>` at `t0` stores the expiry
instant `t0 + n`. A `get k` at `t1` replies the bulk string of `v` when
`t0 + n ≤ 0` or `t1 ≤ t0 + n`, and `$-1\r\n` when `0 < t0 + n < t1`. -/
theorem px_nonpositive_expiry (cfg : Config) (s : Store) (t0 n : Int) (k v : String)
    (hk : isToken k = true) (hv : isToken v = true) (hn : n ≤ 0) (hnlo : -2 ^ 63 ≤ n)
    (hlo : -2 ^ 63 ≤ t0 + n) (hhi : t0 + n < 2 ^ 63) :
    ∃ s1, handleResponse cfg s t0 ("set " ++ k ++ " " ++ v ++ " PX " ++ Itoa n) =
        some ("+OK\r\n", s1) ∧
      s1 k = some ⟨v, t0 + n⟩ ∧
      (∀ t1, t0 + n ≤ 0 ∨ t1 ≤ t0 + n →
        handleResponse cfg s1 t1 ("get " ++ k) =
          some ("$" ++ Itoa (len v) ++ "\r\n" ++ v ++ "\r\n", s1)) ∧
      (∀ t1, 0 < t0 + n → t0 + n < t1 →
        handleResponse cfg s1 t1 ("get " ++ k) = some ("$-1\r\n", s1.delete k)) := by
  have hp : ParseInt (Itoa n) = some n := ParseInt_Itoa n hnlo (by omega)
  have hw : wrapInt64 (t0 + n) = t0 + n := wrapInt64_of_range _ hlo hhi
  refine ⟨s.assign k ⟨v, t0 + n⟩, ?_, by simp [Store.assign], ?_, ?_⟩
  · rw [handleResponse_setPX cfg s t0 k v _ hk hv (isToken_Itoa n), hp]
    simp only [hw]
  · intro t1 h1
    rw [get_assigned cfg s t1 k v _ hk, if_neg (by omega)]
  · intro t1 h1 h2
    rw [get_assigned cfg s t1 k v _ hk, if_pos ⟨h1, h2⟩]

/-- Witness of `px_nonpositive_expiry`: `set foo bar PX 0` at clock `1000`. -/
theorem px_nonpositive_expiry_witness :
    ∃ s1, handleResponse exampleConfig Store.empty 1000 "set foo bar PX 0" =
        some ("+OK\r\n", s1) ∧
      s1 "foo" = some ⟨"bar", 1000⟩ ∧
      (∀ t1, (1000 : Int) + 0 ≤ 0 ∨ t1 ≤ 1000 + 0 →
        handleResponse exampleConfig s1 t1 "get foo" = some ("$3\r\nbar\r\n", s1)) ∧
      (∀ t1, (0 : Int) < 1000 + 0 → 1000 + 0 < t1 →
        handleResponse exampleConfig s1 t1 "get foo" = some ("$-1\r\n", s1.delete "foo")) :=
  px_nonpositive_expiry exampleConfig Store.empty 1000 0 "foo" "bar" (by decide) (by decide)
    (by decide) (by decide) (by decide) (by decide)

/-- Claim C9. A PX value that does not parse is not an error: for tokens `k`, `v`,
`x` with `ParseInt x` failing, `set k v PX x` replies `+OK\r\n` and stores
`v` with `expires = 0`, so `get k` replies the bulk string of `v` at every
clock reading. -/
theorem malformed_px_no_expiry (cfg : Config) (s : Store) (t0 : Int) (k v x : String)
    (hk : isToken k = true) (hv : isToken v = true) (hx : isToken x = true)
    (hbad : ParseInt x = none) :
    ∃ s1, handleResponse cfg s t0 ("set " ++ k ++ " " ++ v ++ " PX " ++ x) =
        some ("+OK\r\n", s1) ∧
      s1 k = some ⟨v, 0⟩ ∧
      ∀ t1, handleResponse cfg s1 t1 ("get " ++ k) =
        some ("$" ++ Itoa (len v) ++ "\r\n" ++ v ++ "\r\n", s1) := by
  refine ⟨s.assign k ⟨v, 0⟩, ?_, by simp [Store.assign], ?_⟩
  · rw [handleResponse_setPX cfg s t0 k v x hk hv hx, hbad]
  · intro t1
    exact get_assigned_noexpiry cfg s t1 k v hk

/-- Witness of `malformed_px_no_expiry`: the value `9223372036854775808` is
out of the `int64` range. -/
theorem malformed_px_no_expiry_witness :
    ∃ s1, handleResponse exampleConfig Store.empty 1000
        "set foo bar PX 9223372036854775808" = some ("+OK\r\n", s1) ∧
      s1 "foo" = some ⟨"bar", 0⟩ ∧
      ∀ t1, handleResponse exampleConfig s1 t1 "get foo" = some ("$3\r\nbar\r\n", s1) :=
  malformed_px_no_expiry exampleConfig Store.empty 1000 "foo" "bar" "9223372036854775808"
    (by decide) (by decide) (by decide) (by decide)

/-- A message without any token makes `handleResponse` fail at `cmds[0]`. -/
theorem handleResponse_blank (cfg : Config) (s : Store) (now : Int) (m : String)
    (h : ∀ c ∈ m.data, isSpace c = true) : handleResponse cfg s now m = none := by
  have hf : Fields (TrimSpace m) = [] := by
    rw [Fields_TrimSpace]
    unfold Fields
    have := fieldsFrom_spaces m.data [] h
    simp [this, fieldsFrom]
  simp [handleResponse, hf]

/-- Claim C10, the failing input. On the empty message, on a blank message and on
the line `\n` the slice `cmds` is empty and `cmds[0]` is out of range:
`handleResponse` produces no reply, also on the per-line path. -/
theorem handleResponse_empty_line_fails (lowerTable : Char → Char) (cfg : Config) (s : Store)
    (now : Int) :
    handleResponse cfg s now "" = none ∧ handleResponse cfg s now "  \t " = none ∧
      handleResponse cfg s now "\n" = none ∧ processLine lowerTable cfg s now "\n" = none ∧
      processLine lowerTable cfg s now "\r\n" = none := by
  refine ⟨?_, ?_, ?_, ?_, ?_⟩
  · exact handleResponse_blank cfg s now _ (by decide)
  · exact handleResponse_blank cfg s now _ (by decide)
  · exact handleResponse_blank cfg s now _ (by decide)
  · show handleResponse cfg s now "\n" = none
    exact handleResponse_blank cfg s now _ (by decide)
  · show handleResponse cfg s now "\r\n" = none
    exact handleResponse_blank cfg s now _ (by decide)

/-! ## Arity, configuration and unknown commands -/

theorem fieldsFrom_leading_spaces (sp rest : List Char) (hs : ∀ c ∈ sp, isSpace c = true) :
    fieldsFrom (sp ++ rest) [] = fieldsFrom rest [] := by
  induction sp with
  | nil => rfl
  | cons c sp ih =>
    have hc : isSpace c = true := hs c (List.mem_cons_self _ _)
    have hs2 : ∀ d ∈ sp, isSpace d = true := fun d hd => hs d (List.mem_cons_of_mem _ hd)
    have e : (c :: sp) ++ rest = c :: (sp ++ rest) := rfl
    rw [e]
    simp [fieldsFrom, hc, ih hs2]

/-- A single token surrounded by any white space splits into that token. -/
theorem Fields_surrounded (pre post w : String) (hpre : ∀ c ∈ pre.data, isSpace c = true)
    (hpost : ∀ c ∈ post.data, isSpace c = true) (hw : isToken w = true) :
    Fields (pre ++ w ++ post) = [w] := by
  obtain ⟨hne, hns⟩ := (isToken_iff w).mp hw
  unfold Fields
  simp only [String.data_append, List.append_assoc]
  rw [fieldsFrom_leading_spaces _ _ hpre, fieldsFrom_nonspace _ _ _ hns,
    fieldsFrom_spaces _ _ hpost]
  simp [fieldsFrom, hne]

/-- Claim C12. Wrong arity for SET and GET: a message whose tokens are `set`
alone or `set` and one argument gets the wrong-arity error of `set`, a
message whose only token is `get` gets the wrong-arity error of `get`, and
the store is the same afterwards. -/
theorem wrong_arity_rejected (cfg : Config) (s : Store) (now : Int) (m : String) :
    ((Fields m = ["set"] ∨ ∃ k, Fields m = ["set", k]) →
      handleResponse cfg s now m =
        some ("-ERR wrong number of arguments for 'set' command\r\n", s)) ∧
    (Fields m = ["get"] →
      handleResponse cfg s now m =
        some ("-ERR wrong number of arguments for 'get' command\r\n", s)) := by
  constructor
  · rintro (h | ⟨k, h⟩)
    · rw [← Fields_TrimSpace] at h
      simp [handleResponse, h]
    · rw [← Fields_TrimSpace] at h
      simp [handleResponse, h]
  · intro h
    rw [← Fields_TrimSpace] at h
    simp [handleResponse, h]

/-- Witness of `wrong_arity_rejected`: the message `set foo`. -/
theorem wrong_arity_rejected_witness :
    handleResponse exampleConfig Store.empty 1000 "set foo" =
      some ("-ERR wrong number of arguments for 'set' command\r\n", Store.empty) :=
  (wrong_arity_rejected exampleConfig Store.empty 1000 "set foo").1
    (Or.inr ⟨"foo", by decide⟩)

/-- Claim C13. CONFIG GET returns the configured strings: `config get dir` and
`config get dbfilename` reply the two-element array with the name and the
configured value, `config get x` for any other token `x` replies
`$-1\r\n`, and the store is the same afterwards. -/
theorem config_get_values (cfg : Config) (s : Store) (now : Int) (x : String)
    (hx : isToken x = true) (hdir : x ≠ "dir") (hdb : x ≠ "dbfilename") :
    handleResponse cfg s now "config get dir" =
      some ("*2\r\n$3\r\ndir\r\n$" ++ Itoa (len cfg.dir) ++ "\r\n" ++ cfg.dir ++ "\r\n", s) ∧
    handleResponse cfg s now "config get dbfilename" =
      some ("*2\r\n$10\r\ndbfilename\r\n$" ++ Itoa (len cfg.dbfilename) ++ "\r\n" ++
        cfg.dbfilename ++ "\r\n", s) ∧
    handleResponse cfg s now ("config get " ++ x) = some ("$-1\r\n", s) := by
  have h1 : Fields (TrimSpace "config get dir") = ["config", "get", "dir"] := by decide
  have h2 : Fields (TrimSpace "config get dbfilename") = ["config", "get", "dbfilename"] := by
    decide
  have h3 : Fields (TrimSpace ("config get " ++ x)) = ["config", "get", x] := by
    have e : "config get " ++ x = Join ["config", "get", x] " " := by
      apply String.ext
      simp [Join, String.data_append]
    rw [e]
    apply Fields_Join
    intro w hw
    simp only [List.mem_cons, List.mem_singleton, List.not_mem_nil, or_false] at hw
    rcases hw with rfl | rfl | rfl
    · decide
    · decide
    · exact hx
  refine ⟨?_, ?_, ?_⟩
  · simp [handleResponse, h1]
  · simp [handleResponse, h2]
  · simp [handleResponse, h3, hdir, hdb]

/-- Witness of `config_get_values`: the unknown name `port`. -/
theorem config_get_values_witness :
    handleResponse exampleConfig Store.empty 1000 "config get dir" =
      some ("*2\r\n$3\r\ndir\r\n$15\r\n/tmp/redis-data\r\n", Store.empty) ∧
    handleResponse exampleConfig Store.empty 1000 "config get dbfilename" =
      some ("*2\r\n$10\r\ndbfilename\r\n$8\r\ndump.rdb\r\n", Store.empty) ∧
    handleResponse exampleConfig Store.empty 1000 "config get port" =
      some ("$-1\r\n", Store.empty) :=
  config_get_values exampleConfig Store.empty 1000 "port" (by decide) (by decide) (by decide)

/-- Claim C15. ECHO with no argument is a nil reply: a message whose only token
is `echo`, with any white space around it, gets `$-1\r\n`, which does not
begin with `-ERR`, and the store is the same afterwards. -/
theorem echo_no_argument_nil (cfg : Config) (s : Store) (now : Int) (pre post : String)
    (hpre : ∀ c ∈ pre.data, isSpace c = true) (hpost : ∀ c ∈ post.data, isSpace c = true) :
    handleResponse cfg s now (pre ++ "echo" ++ post) = some ("$-1\r\n", s) ∧
      ¬ ("-ERR".data <+: "$-1\r\n".data) := by
  have h : Fields (TrimSpace (pre ++ "echo" ++ post)) = ["echo"] := by
    rw [Fields_TrimSpace]
    exact Fields_surrounded pre post "echo" hpre hpost (by decide)
  refine ⟨?_, by decide⟩
  simp [handleResponse, h]

/-- Witness of `echo_no_argument_nil`: the line `  echo \r\n`. -/
theorem echo_no_argument_nil_witness :
    handleResponse exampleConfig Store.empty 1000 "  echo \r\n" =
      some ("$-1\r\n", Store.empty) ∧ ¬ ("-ERR".data <+: "$-1\r\n".data) :=
  echo_no_argument_nil exampleConfig Store.empty 1000 "  " " \r\n" (by decide) (by decide)

/-- Claim C16. Unknown commands get the generic error: a message whose first
token is none of `ping`, `echo`, `set`, `get`, `config` gets
`-ERR unknown command\r\n`, and the store is the same afterwards. -/
theorem unknown_command_error (cfg : Config) (s : Store) (now : Int) (m verb : String)
    (args : List String) (hm : Fields m = verb :: args) (h1 : verb ≠ "ping")
    (h2 : verb ≠ "echo") (h3 : verb ≠ "set") (h4 : verb ≠ "get") (h5 : verb ≠ "config") :
    handleResponse cfg s now m = some ("-ERR unknown command\r\n", s) := by
  rw [← Fields_TrimSpace] at hm
  simp [handleResponse, hm, h1, h2, h3, h4, h5]

/-- Witness of `unknown_command_error`: the message `del foo`. -/
theorem unknown_command_error_witness :
    handleResponse exampleConfig Store.empty 1000 "del foo" =
      some ("-ERR unknown command\r\n", Store.empty) :=
  unknown_command_error exampleConfig Store.empty 1000 "del foo" "del" ["foo"] (by decide)
    (by decide) (by decide) (by decide) (by decide) (by decide)

/-- Claim C14, counterexample. The unknown subcommand `config set dir` gets the
generic `-ERR unknown command\r\n`, in which the word `config` does not
occur. -/
theorem config_error_counterexample :
    (handleResponse exampleConfig Store.empty 1000 "config set dir").map Prod.fst =
      some "-ERR unknown command\r\n" ∧
    Fields (TrimSpace "config set dir") = ["config", "set", "dir"] ∧
    ¬ ("config".data <:+: "-ERR unknown command\r\n".data) := by
  decide

/-- Claim C14, amended. For a message whose first token is `config`: with a
number of tokens other than three the reply is the wrong-arity error, which
has the form `-ERR <message>\r\n` and names `config`; with three tokens and
a second token other than `get` the reply is the generic
`-ERR unknown command\r\n`. The store is the same afterwards. -/
theorem config_errors (cfg : Config) (s : Store) (now : Int) (m : String) (args : List String)
    (hm : Fields m = "config" :: args) :
    (args.length ≠ 2 →
      handleResponse cfg s now m =
        some ("-ERR " ++ "wrong number of arguments for 'config' command" ++ "\r\n", s) ∧
      "config".data <:+: "wrong number of arguments for 'config' command".data) ∧
    (∀ sub name, args = [sub, name] → sub ≠ "get" →
      handleResponse cfg s now m = some ("-ERR " ++ "unknown command" ++ "\r\n", s)) := by
  rw [← Fields_TrimSpace] at hm
  constructor
  · intro hlen
    refine ⟨?_, by decide⟩
    have e : "-ERR " ++ "wrong number of arguments for 'config' command" ++ "\r\n" =
        "-ERR wrong number of arguments for 'config' command\r\n" := by decide
    rw [e]
    simp [handleResponse, hm, hlen]
  · rintro sub name rfl hsub
    have e : "-ERR " ++ "unknown command" ++ "\r\n" = "-ERR unknown command\r\n" := by decide
    rw [e]
    simp [handleResponse, hm, hsub]

/-- Witness of `config_errors`: the message `config get` has two tokens. -/
theorem config_errors_witness :
    handleResponse exampleConfig Store.empty 1000 "config get" =
        some ("-ERR " ++ "wrong number of arguments for 'config' command" ++ "\r\n",
          Store.empty) ∧
      "config".data <:+: "wrong number of arguments for 'config' command".data :=
  (config_errors exampleConfig Store.empty 1000 "config get" ["get"] (by decide)).1 (by decide)

theorem not_WireReply_of_head (r : String) (c : Char) (rest : List Char) (hr : r.data = c :: rest)
    (h1 : c ≠ '+') (h2 : c ≠ '-') (h3 : c ≠ '$') (h4 : c ≠ '*') : ¬ WireReply r := by
  rintro (⟨text, h⟩ | ⟨msg, h⟩ | ⟨value, h⟩ | h | ⟨name, value, h⟩)
  all_goals
    have hd := congrArg String.data h
    rw [hr] at hd
    simp [String.data_append] at hd
    first
      | exact h1 hd.1
      | exact h2 hd.1
      | exact h3 hd.1
      | exact h4 hd.1

/-- Claim C11, counterexample. `echo hello` gets the reply `hello\r\n`: the
argument followed by the line end, without any framing, which is none of
the five wire forms. -/
theorem echo_reply_counterexample :
    (handleResponse exampleConfig Store.empty 1000 "echo hello").map Prod.fst =
      some "hello\r\n" ∧
    Fields (TrimSpace "echo hello") = ["echo", "hello"] ∧ ¬ WireReply "hello\r\n" :=
  ⟨by decide, by decide,
    not_WireReply_of_head _ 'h' _ rfl (by decide) (by decide) (by decide) (by decide)⟩

/-! ## Replies and frame of a command -/

theorem pair_of_some_eq {r r1 : String} {s s1 : Store} (h : some (r, s) = some (r1, s1)) :
    r1 = r ∧ s1 = s := by
  injection h with h
  injection h with h1 h2
  exact ⟨h1.symm, h2.symm⟩

theorem WireReply_status (text : String) : WireReply ("+" ++ text ++ "\r\n") :=
  Or.inl ⟨text, rfl⟩

theorem WireReply_error (msg : String) : WireReply ("-ERR " ++ msg ++ "\r\n") :=
  Or.inr (Or.inl ⟨msg, rfl⟩)

theorem WireReply_bulk (value : String) :
    WireReply ("$" ++ Itoa (len value) ++ "\r\n" ++ value ++ "\r\n") :=
  Or.inr (Or.inr (Or.inl ⟨value, rfl⟩))

theorem WireReply_null : WireReply "$-1\r\n" :=
  Or.inr (Or.inr (Or.inr (Or.inl rfl)))

theorem WireReply_array (name value : String) :
    WireReply ("*2\r\n$" ++ Itoa (len name) ++ "\r\n" ++ name ++ "\r\n$" ++
      Itoa (len value) ++ "\r\n" ++ value ++ "\r\n") :=
  Or.inr (Or.inr (Or.inr (Or.inr ⟨name, value, rfl⟩)))

/-- Every completed call of `handleResponse`, by cases: the store is kept and
the reply is the bulk string of a live entry, a wire form, or the unframed
echo of the arguments; or a `get` deletes an absent or expired key with the
null reply; or a `set` with two arguments or more assigns its key. -/
theorem handleResponse_cases (cfg : Config) (s : Store) (now : Int) (m r : String) (s1 : Store)
    (h : handleResponse cfg s now m = some (r, s1)) :
    (s1 = s ∧
      ((∃ key rest e, Fields (TrimSpace m) = "get" :: key :: rest ∧ s key = some e ∧
          ¬ (e.expires > 0 ∧ now > e.expires) ∧
          r = "$" ++ Itoa (len e.value) ++ "\r\n" ++ e.value ++ "\r\n") ∨
        (WireReply r ∧ ∀ key rest, Fields (TrimSpace m) ≠ "get" :: key :: rest) ∨
        (∃ a args, Fields (TrimSpace m) = "echo" :: a :: args ∧
          r = Join (a :: args) " " ++ "\r\n"))) ∨
    (∃ key rest, Fields (TrimSpace m) = "get" :: key :: rest ∧
      (s key = none ∨ ∃ e, s key = some e ∧ e.expires > 0 ∧ now > e.expires) ∧
      r = "$-1\r\n" ∧ s1 = s.delete key) ∨
    (∃ key v rest exp, Fields (TrimSpace m) = "set" :: key :: v :: rest ∧ r = "+OK\r\n" ∧
      s1 = s.assign key ⟨v, exp⟩) := by
  unfold handleResponse at h
  generalize Fields (TrimSpace m) = cmds at h ⊢
  cases cmds with
  | nil => simp at h
  | cons c0 args =>
    simp only at h
    by_cases h1 : c0 = "ping"
    · rw [if_pos h1] at h
      obtain ⟨rfl, rfl⟩ := pair_of_some_eq h
      refine Or.inl ⟨rfl, Or.inr (Or.inl ⟨WireReply_status "PONG", ?_⟩)⟩
      intro key rest hc
      injection hc with hc _
      rw [h1] at hc
      revert hc
      decide
    rw [if_neg h1] at h
    by_cases h2 : c0 = "echo"
    · rw [if_pos h2] at h
      have hng : ∀ key rest, c0 :: args ≠ "get" :: key :: rest := by
        intro key rest hc
        injection hc with hc _
        rw [h2] at hc
        revert hc
        decide
      split_ifs at h with hl
      · obtain ⟨rfl, rfl⟩ := pair_of_some_eq h
        exact Or.inl ⟨rfl, Or.inr (Or.inl ⟨WireReply_null, hng⟩)⟩
      · obtain ⟨rfl, rfl⟩ := pair_of_some_eq h
        rcases args with _ | ⟨a, args⟩
        · simp at hl
        · exact Or.inl ⟨rfl, Or.inr (Or.inr ⟨a, args, by rw [h2], rfl⟩)⟩
    rw [if_neg h2] at h
    by_cases h3 : c0 = "set"
    · rw [if_pos h3] at h
      have hng : ∀ key rest, c0 :: args ≠ "get" :: key :: rest := by
        intro key rest hc
        injection hc with hc _
        rw [h3] at hc
        revert hc
        decide
      by_cases hl : (c0 :: args).length ≥ 3
      · rw [if_pos hl] at h
        rcases args with _ | ⟨a, _ | ⟨b, rest⟩⟩
        · simp at hl
        · simp at hl
        · obtain ⟨rfl, rfl⟩ := pair_of_some_eq h
          exact Or.inr (Or.inr ⟨a, b, rest, _, by rw [h3], rfl, rfl⟩)
      · rw [if_neg hl] at h
        obtain ⟨rfl, rfl⟩ := pair_of_some_eq h
        exact Or.inl ⟨rfl, Or.inr (Or.inl
          ⟨WireReply_error "wrong number of arguments for 'set' command", hng⟩)⟩
    rw [if_neg h3] at h
    by_cases h4 : c0 = "get"
    · rw [if_pos h4] at h
      by_cases hl : (c0 :: args).length ≥ 2
      · rw [if_pos hl] at h
        rcases args with _ | ⟨key, rest⟩
        · simp at hl
        · simp only [List.getD_cons_succ, List.getD_cons_zero] at h
          cases hs : s key with
          | none =>
            rw [hs] at h
            obtain ⟨rfl, rfl⟩ := pair_of_some_eq h
            exact Or.inr (Or.inl ⟨key, rest, by rw [h4], Or.inl hs, rfl, rfl⟩)
          | some e =>
            rw [hs] at h
            simp only at h
            by_cases hexp : e.expires > 0 ∧ now > e.expires
            · rw [if_pos hexp] at h
              obtain ⟨rfl, rfl⟩ := pair_of_some_eq h
              exact Or.inr (Or.inl ⟨key, rest, by rw [h4], Or.inr ⟨e, hs, hexp⟩, rfl, rfl⟩)
            · rw [if_neg hexp] at h
              obtain ⟨rfl, rfl⟩ := pair_of_some_eq h
              exact Or.inl ⟨rfl, Or.inl ⟨key, rest, e, by rw [h4], hs, hexp, rfl⟩⟩
      · rw [if_neg hl] at h
        obtain ⟨rfl, rfl⟩ := pair_of_some_eq h
        refine Or.inl ⟨rfl, Or.inr (Or.inl
          ⟨WireReply_error "wrong number of arguments for 'get' command", ?_⟩)⟩
        intro key rest hc
        rw [hc] at hl
        simp at hl
    rw [if_neg h4] at h
    have hng : ∀ key rest, c0 :: args ≠ "get" :: key :: rest := by
      intro key rest hc
      injection hc with hc _
      exact h4 hc
    by_cases h5 : c0 = "config"
    · rw [if_pos h5] at h
      split_ifs at h
      · obtain ⟨rfl, rfl⟩ := pair_of_some_eq h
        exact Or.inl ⟨rfl, Or.inr (Or.inl
          ⟨WireReply_error "wrong number of arguments for 'config' command", hng⟩)⟩
      · obtain ⟨rfl, rfl⟩ := pair_of_some_eq h
        have e : "*2\r\n$3\r\ndir\r\n$" = "*2\r\n$" ++ Itoa (len "dir") ++ "\r\n" ++ "dir" ++
            "\r\n$" := by decide
        rw [e]
        exact Or.inl ⟨rfl, Or.inr (Or.inl ⟨WireReply_array "dir" cfg.dir, hng⟩)⟩
      · obtain ⟨rfl, rfl⟩ := pair_of_some_eq h
        have e : "*2\r\n$10\r\ndbfilename\r\n$" = "*2\r\n$" ++ Itoa (len "dbfilename") ++
            "\r\n" ++ "dbfilename" ++ "\r\n$" := by decide
        rw [e]
        exact Or.inl ⟨rfl, Or.inr (Or.inl ⟨WireReply_array "dbfilename" cfg.dbfilename, hng⟩)⟩
      · obtain ⟨rfl, rfl⟩ := pair_of_some_eq h
        exact Or.inl ⟨rfl, Or.inr (Or.inl ⟨WireReply_null, hng⟩)⟩
      · obtain ⟨rfl, rfl⟩ := pair_of_some_eq h
        exact Or.inl ⟨rfl, Or.inr (Or.inl ⟨WireReply_error "unknown command", hng⟩)⟩
    · rw [if_neg h5] at h
      obtain ⟨rfl, rfl⟩ := pair_of_some_eq h
      exact Or.inl ⟨rfl, Or.inr (Or.inl ⟨WireReply_error "unknown command", hng⟩)⟩

/-- Apart from the echo of arguments, every reply is one of the five wire
forms. -/
theorem reply_wire_unless_echo (cfg : Config) (s : Store) (now : Int) (m r : String)
    (s1 : Store) (h : handleResponse cfg s now m = some (r, s1)) :
    WireReply r ∨ ∃ a args, Fields (TrimSpace m) = "echo" :: a :: args ∧
      r = Join (a :: args) " " ++ "\r\n" := by
  rcases handleResponse_cases cfg s now m r s1 h with
    ⟨-, ⟨key, rest, e, -, -, -, rfl⟩ | ⟨hw, -⟩ | hecho⟩ | ⟨key, rest, -, -, rfl, -⟩ |
    ⟨key, v, rest, exp, -, rfl, -⟩
  · exact Or.inl (WireReply_bulk _)
  · exact Or.inl hw
  · exact Or.inr hecho
  · exact Or.inl WireReply_null
  · exact Or.inl (WireReply_status "OK")

/-- A message with at least one token always gets a reply. -/
theorem handleResponse_total (cfg : Config) (s : Store) (now : Int) (m : String)
    (hm : Fields m ≠ []) : ∃ r s1, handleResponse cfg s now m = some (r, s1) := by
  rw [← Fields_TrimSpace] at hm
  cases h : handleResponse cfg s now m with
  | some p => exact ⟨p.1, p.2, rfl⟩
  | none =>
    exfalso
    unfold handleResponse at h
    generalize Fields (TrimSpace m) = cmds at hm h
    cases cmds with
    | nil => exact hm rfl
    | cons c0 args =>
      simp only at h
      by_cases h1 : c0 = "ping"
      · rw [if_pos h1] at h; cases h
      rw [if_neg h1] at h
      by_cases h2 : c0 = "echo"
      · rw [if_pos h2] at h
        split_ifs at h
      rw [if_neg h2] at h
      by_cases h3 : c0 = "set"
      · rw [if_pos h3] at h
        split_ifs at h
      rw [if_neg h3] at h
      by_cases h4 : c0 = "get"
      · rw [if_pos h4] at h
        by_cases hl : (c0 :: args).length ≥ 2
        · rw [if_pos hl] at h
          split at h
          · cases h
          · split_ifs at h
        · rw [if_neg hl] at h; cases h
      rw [if_neg h4] at h
      split_ifs at h

/-- Claim C11, amended. Every message with at least one token gets a reply,
and the reply is one of the five wire forms, except for `echo` with at least
one argument: its reply is the arguments joined by single blanks and
followed by `\r\n`, without framing. -/
theorem replies_wire_or_echo (cfg : Config) (s : Store) (now : Int) (m : String)
    (hm : Fields m ≠ []) :
    ∃ r s1, handleResponse cfg s now m = some (r, s1) ∧
      (WireReply r ∨ ∃ a args, Fields (TrimSpace m) = "echo" :: a :: args ∧
        r = Join (a :: args) " " ++ "\r\n") := by
  obtain ⟨r, s1, h⟩ := handleResponse_total cfg s now m hm
  exact ⟨r, s1, h, reply_wire_unless_echo cfg s now m r s1 h⟩

/-- Witness of `replies_wire_or_echo`: the message `config get dir`. -/
theorem replies_wire_or_echo_witness :
    ∃ r s1, handleResponse exampleConfig Store.empty 1000 "config get dir" = some (r, s1) ∧
      (WireReply r ∨ ∃ a args, Fields (TrimSpace "config get dir") = "echo" :: a :: args ∧
        r = Join (a :: args) " " ++ "\r\n") :=
  replies_wire_or_echo exampleConfig Store.empty 1000 "config get dir" (by decide)

theorem Store.delete_absent (s : Store) (k : String) (h : s k = none) : s.delete k = s := by
  funext x
  simp only [Store.delete]
  split_ifs with hx
  · rw [hx, h]
  · rfl

/-- Claim C19. Frame of one command: a message with at least one token gets a
reply; the store afterwards agrees with the store before at every key other
than the first argument `cmds[1]`; and it is the same store unless the
tokens are `set` with two arguments or more, or `get` with an argument whose
entry is expired. -/
theorem command_frame (cfg : Config) (s : Store) (now : Int) (m : String)
    (hm : Fields m ≠ []) :
    ∃ r s1, handleResponse cfg s now m = some (r, s1) ∧
      (∀ k, k ≠ (Fields (TrimSpace m)).getD 1 "" → s1 k = s k) ∧
      ((¬ ∃ key v rest, Fields (TrimSpace m) = "set" :: key :: v :: rest) →
        (¬ ∃ key rest e, Fields (TrimSpace m) = "get" :: key :: rest ∧ s key = some e ∧
          e.expires > 0 ∧ now > e.expires) → s1 = s) := by
  obtain ⟨r, s1, h⟩ := handleResponse_total cfg s now m hm
  refine ⟨r, s1, h, ?_, ?_⟩
  · intro k hk
    rcases handleResponse_cases cfg s now m r s1 h with
      ⟨rfl, -⟩ | ⟨key, rest, hf, -, -, rfl⟩ | ⟨key, v, rest, exp, hf, -, rfl⟩
    · rfl
    · rw [hf] at hk
      simp only [List.getD_cons_succ, List.getD_cons_zero] at hk
      simp [Store.delete, hk]
    · rw [hf] at hk
      simp only [List.getD_cons_succ, List.getD_cons_zero] at hk
      simp [Store.assign, hk]
  · intro hset hget
    rcases handleResponse_cases cfg s now m r s1 h with
      ⟨rfl, -⟩ | ⟨key, rest, hf, hgone, -, rfl⟩ | ⟨key, v, rest, exp, hf, -, -⟩
    · rfl
    · rcases hgone with hnone | ⟨e, he, hexp⟩
      · exact Store.delete_absent s key hnone
      · exact absurd ⟨key, rest, e, hf, he, hexp⟩ hget
    · exact absurd ⟨key, v, rest, hf⟩ hset

/-- Witness of `command_frame`: the message `echo hi` on a store with one
entry. -/
theorem command_frame_witness :
    ∃ r s1, handleResponse exampleConfig (Store.empty.assign "foo" ⟨"bar", 0⟩) 1000 "echo hi" =
        some (r, s1) ∧
      (∀ k, k ≠ (Fields (TrimSpace "echo hi")).getD 1 "" →
        s1 k = (Store.empty.assign "foo" ⟨"bar", 0⟩) k) ∧
      ((¬ ∃ key v rest, Fields (TrimSpace "echo hi") = "set" :: key :: v :: rest) →
        (¬ ∃ key rest e, Fields (TrimSpace "echo hi") = "get" :: key :: rest ∧
          (Store.empty.assign "foo" ⟨"bar", 0⟩) key = some e ∧
          e.expires > 0 ∧ (1000 : Int) > e.expires) →
        s1 = Store.empty.assign "foo" ⟨"bar", 0⟩) :=
  command_frame exampleConfig (Store.empty.assign "foo" ⟨"bar", 0⟩) 1000 "echo hi" (by decide)

/-! ## Letter case and stored tokens -/

theorem fieldsFrom_tokens (l : List Char) :
    ∀ cur : List Char, (∀ c ∈ cur, isSpace c = false) →
      ∀ w ∈ fieldsFrom l cur, w ≠ [] ∧ ∀ c ∈ w, isSpace c = false := by
  induction l with
  | nil =>
    intro cur hcur w hw
    cases cur with
    | nil => simp [fieldsFrom] at hw
    | cons a cur =>
      simp only [fieldsFrom, List.isEmpty_cons, Bool.false_eq_true, if_false,
        List.mem_singleton] at hw
      subst hw
      refine ⟨by simp, ?_⟩
      intro c hc
      exact hcur c (List.mem_reverse.mp hc)
  | cons c cs ih =>
    intro cur hcur w hw
    simp only [fieldsFrom] at hw
    by_cases hc : isSpace c = true
    · rw [if_pos hc] at hw
      cases cur with
      | nil =>
        simp only [List.isEmpty_nil, if_true] at hw
        exact ih [] (by simp) w hw
      | cons a cur =>
        simp only [List.isEmpty_cons, Bool.false_eq_true, if_false, List.mem_cons] at hw
        rcases hw with rfl | hw
        · refine ⟨by simp, ?_⟩
          intro d hd
          exact hcur d (List.mem_reverse.mp hd)
        · exact ih [] (by simp) w hw
    · rw [if_neg hc] at hw
      refine ih (c :: cur) ?_ w hw
      intro d hd
      rcases List.mem_cons.mp hd with rfl | hd
      · simpa using hc
      · exact hcur d hd

/-- Every field returned by `Fields` is a token. -/
theorem Fields_tokens (x w : String) (hw : w ∈ Fields x) : isToken w = true := by
  unfold Fields at hw
  obtain ⟨l, hl, rfl⟩ := List.mem_map.mp hw
  rw [isToken_iff]
  exact fieldsFrom_tokens x.data [] (by simp) l hl

/-- One command keeps the keys and values of the store tokens. -/
theorem TokenStore_step (cfg : Config) (s : Store) (now : Int) (m r : String) (s1 : Store)
    (h : handleResponse cfg s now m = some (r, s1)) (hs : TokenStore s) : TokenStore s1 := by
  rcases handleResponse_cases cfg s now m r s1 h with
    ⟨rfl, -⟩ | ⟨key, rest, -, -, -, rfl⟩ | ⟨key, v, rest, exp, hf, -, rfl⟩
  · exact hs
  · intro k e hk
    simp only [Store.delete] at hk
    split_ifs at hk
    exact hs k e hk
  · intro k e hk
    simp only [Store.assign] at hk
    split_ifs at hk with hkey
    · injection hk with hk
      subst hk
      subst hkey
      have hk1 : k ∈ Fields (TrimSpace m) := by rw [hf]; simp
      have hv1 : v ∈ Fields (TrimSpace m) := by rw [hf]; simp
      exact ⟨Fields_tokens _ _ hk1, Fields_tokens _ _ hv1⟩
    · exact hs k e hk

theorem TokenStore_session (cfg : Config) (cmds : List (Int × String)) :
    ∀ (s : Store) (rs : List String) (s2 : Store), TokenStore s →
      runSession cfg s cmds = some (rs, s2) → TokenStore s2 := by
  induction cmds with
  | nil =>
    intro s rs s2 hs hrun
    simp only [runSession, Option.some.injEq, Prod.mk.injEq] at hrun
    rw [← hrun.2]
    exact hs
  | cons c rest ih =>
    intro s rs s2 hs hrun
    obtain ⟨now, m⟩ := c
    simp only [runSession] at hrun
    cases h1 : handleResponse cfg s now m with
    | none => simp [h1] at hrun
    | some p =>
      obtain ⟨r, s1⟩ := p
      rw [h1] at hrun
      simp only at hrun
      cases h2 : runSession cfg s1 rest with
      | none => simp [h2] at hrun
      | some q =>
        obtain ⟨rs1, s3⟩ := q
        rw [h2] at hrun
        simp only [Option.some.injEq, Prod.mk.injEq] at hrun
        rw [← hrun.2]
        exact ih s1 rs1 s3 (TokenStore_step cfg s now m r s1 h1 hs) h2

theorem countCRLF_skip (a l : List Char) (ha : ∀ c ∈ a, c ≠ '\r') :
    countCRLF (a ++ l) = countCRLF l := by
  induction a with
  | nil => rfl
  | cons c a ih =>
    have hc : c ≠ '\r' := ha c (List.mem_cons_self _ _)
    have ha2 : ∀ d ∈ a, d ≠ '\r' := fun d hd => ha d (List.mem_cons_of_mem _ hd)
    have hrec := ih ha2
    cases hal : a ++ l with
    | nil =>
      obtain ⟨ha0, hl⟩ := List.append_eq_nil.mp hal
      subst ha0
      subst hl
      simp [countCRLF]
    | cons b rest =>
      rw [hal] at hrec
      have e : (c :: a) ++ l = c :: b :: rest := by rw [List.cons_append, hal]
      rw [e]
      simp only [countCRLF]
      rw [if_neg (fun h => hc h.1)]
      exact hrec

theorem token_no_line_end (v : String) (hv : isToken v = true) :
    ∀ c ∈ v.data, c ≠ '\r' ∧ c ≠ '\n' := by
  obtain ⟨-, hns⟩ := (isToken_iff v).mp hv
  intro c hc
  have := hns c hc
  constructor
  · rintro rfl; revert this; decide
  · rintro rfl; revert this; decide

/-- The bulk reply of a value without line end has exactly two line ends. -/
theorem countCRLF_bulk (v : String) (hv : ∀ c ∈ v.data, c ≠ '\r' ∧ c ≠ '\n') :
    countCRLF ("$" ++ Itoa (len v) ++ "\r\n" ++ v ++ "\r\n").data = 2 := by
  obtain ⟨-, h2, -⟩ := formatNat_spec (len v).toNat
  have hlen : ¬ (len v < 0) := by unfold len; omega
  have hd : ("$" ++ Itoa (len v) ++ "\r\n" ++ v ++ "\r\n").data =
      ('$' :: formatNat (len v).toNat) ++ ('\r' :: '\n' :: (v.data ++ ['\r', '\n'])) := by
    simp [String.data_append, Itoa, if_neg hlen]
  have hpre : ∀ c ∈ '$' :: formatNat (len v).toNat, c ≠ '\r' := by
    intro c hc
    rcases List.mem_cons.mp hc with rfl | hc
    · decide
    · have := h2 c hc
      rintro rfl
      revert this
      decide
  rw [hd, countCRLF_skip _ _ hpre]
  simp only [countCRLF, and_self, if_true]
  rw [countCRLF_skip _ _ (fun c hc => (hv c hc).1)]
  simp [countCRLF]

/-- Claim C20. Stored strings are single tokens: in every store reached from
the empty store by a session of `handleResponse` calls, every key and every
stored value is a token without `\r` or `\n`; and every reply of a `get`
there is the null reply or the bulk reply of such a value, which has exactly
two line ends `\r\n`. -/
theorem stored_strings_are_tokens (cfg : Config) (cmds : List (Int × String))
    (rs : List String) (s : Store) (hrun : runSession cfg Store.empty cmds = some (rs, s)) :
    (∀ k e, s k = some e → isToken k = true ∧ isToken e.value = true ∧
      ∀ c ∈ e.value.data, c ≠ '\r' ∧ c ≠ '\n') ∧
    (∀ now m key rest r s1, Fields (TrimSpace m) = "get" :: key :: rest →
      handleResponse cfg s now m = some (r, s1) →
      r = "$-1\r\n" ∨ ∃ v, r = "$" ++ Itoa (len v) ++ "\r\n" ++ v ++ "\r\n" ∧
        (∀ c ∈ v.data, c ≠ '\r' ∧ c ≠ '\n') ∧ countCRLF r.data = 2) := by
  have hts : TokenStore s :=
    TokenStore_session cfg cmds Store.empty rs s (fun k e hk => by simp [Store.empty] at hk) hrun
  constructor
  · intro k e hk
    obtain ⟨h1, h2⟩ := hts k e hk
    exact ⟨h1, h2, token_no_line_end _ h2⟩
  · intro now m key rest r s1 hf h
    rcases handleResponse_cases cfg s now m r s1 h with
      ⟨-, ⟨key1, rest1, e, -, he, -, rfl⟩ | ⟨-, hng⟩ | ⟨a, args, hecho, -⟩⟩ |
      ⟨key1, rest1, -, -, rfl, -⟩ | ⟨key1, v, rest1, exp, hset, -, -⟩
    · have hv := token_no_line_end _ (hts key1 e he).2
      exact Or.inr ⟨e.value, rfl, hv, countCRLF_bulk _ hv⟩
    · exact absurd hf (hng key rest)
    · rw [hf] at hecho
      injection hecho with hecho _
      exact absurd hecho (by decide)
    · exact Or.inl rfl
    · rw [hf] at hset
      injection hset with hset _
      exact absurd hset (by decide)

/-- Witness of `stored_strings_are_tokens`: the store after `set foo bar`
and `set k v PX 100`. -/
theorem stored_strings_are_tokens_witness :
    (∀ k e, ((Store.empty.assign "foo" ⟨"bar", 0⟩).assign "k" ⟨"v", 1100⟩) k = some e →
      isToken k = true ∧ isToken e.value = true ∧
      ∀ c ∈ e.value.data, c ≠ '\r' ∧ c ≠ '\n') ∧
    (∀ now m key rest r s1, Fields (TrimSpace m) = "get" :: key :: rest →
      handleResponse exampleConfig ((Store.empty.assign "foo" ⟨"bar", 0⟩).assign "k"
        ⟨"v", 1100⟩) now m = some (r, s1) →
      r = "$-1\r\n" ∨ ∃ v, r = "$" ++ Itoa (len v) ++ "\r\n" ++ v ++ "\r\n" ∧
        (∀ c ∈ v.data, c ≠ '\r' ∧ c ≠ '\n') ∧ countCRLF r.data = 2) :=
  stored_strings_are_tokens exampleConfig [(990, "set foo bar"), (1000, "set k v PX 100")]
    ["+OK\r\n", "+OK\r\n"] ((Store.empty.assign "foo" ⟨"bar", 0⟩).assign "k" ⟨"v", 1100⟩) rfl

end CustomRedis
